import Mathlib

/-!
Verification development for the HSX repository: a shallow embedding of
`src/hsx-runtime.js` (class `HSXRuntime`, v0.67) and `src/Engine.js`
(class `HSXEngine`), together with theorems settling the frozen claims
about the interpreter's behaviour.

JavaScript strings are modelled as Lean `String`s; the JS string methods
used by the sources (`trim`, `trimEnd`, `startsWith`, `endsWith`,
`includes`, `split`, `replace`, `slice`, and the regexes it uses: the
fence terminator, the first-quoted-substring extractor, the
eq-or-dash alternation, the newline-or-semicolon class, and the
global double-quote deleter) are given executable models below.  JS objects used as string-keyed dictionaries are
modelled as insertion-ordered association lists (`setAssoc` keeps the
position of an existing key, appends a new key, exactly like JS
property assignment).  Mutable heap objects (the storage tables of the
engine, which are shared by reference) are modelled with an explicit
heap from numeric references to tables.
-/

deriving instance DecidableEq for Except

namespace HSX

/-- ASCII whitespace test covering the whitespace characters that occur
in HSX sources (`String.prototype.trim` of JS restricted to them). -/
def isWsChar (c : Char) : Bool := c == ' ' || c == '\t' || c == '\n' || c == '\r'

/-- Left-trim on character lists. -/
def dropWs (l : List Char) : List Char := l.dropWhile isWsChar

/-- Right-trim on character lists. -/
def trimRightL (l : List Char) : List Char := (l.reverse.dropWhile isWsChar).reverse

/-- Both-ends trim on character lists. -/
def trimL (l : List Char) : List Char := trimRightL (dropWs l)

/-- Model of JS `s.trim()`. -/
def jsTrim (s : String) : String := ⟨trimL s.data⟩

/-- Model of JS `s.trimEnd()`. -/
def jsTrimEnd (s : String) : String := ⟨trimRightL s.data⟩

/-- Model of JS `s.startsWith(pre)`. -/
def startsWithS (s pre : String) : Bool := pre.data.isPrefixOf s.data

/-- Model of JS `s.endsWith(suf)`. -/
def endsWithS (s suf : String) : Bool := suf.data.isSuffixOf s.data

/-- Does `pat` occur as a contiguous sublist? -/
def containsSubL (pat : List Char) : List Char → Bool
  | [] => pat.isEmpty
  | c :: rest => pat.isPrefixOf (c :: rest) || containsSubL pat rest

/-- Model of JS `s.includes(sub)`. -/
def includesS (s sub : String) : Bool := containsSubL sub.data s.data

/-- Split a character list at every character satisfying `p`
(model of JS `split` with a single-character separator or a
character-class regex such as `/[\n;]/`). -/
def splitPChar (p : Char → Bool) : List Char → List (List Char)
  | [] => [[]]
  | c :: rest =>
    if p c then [] :: splitPChar p rest
    else
      match splitPChar p rest with
      | [] => [[c]]
      | x :: xs => (c :: x) :: xs

/-- Model of JS `s.split(c)` for a one-character separator. -/
def splitCharS (s : String) (c : Char) : List String :=
  (splitPChar (fun d => d == c) s.data).map (fun l => (⟨l⟩ : String))

/-- Split at every (non-overlapping, leftmost) occurrence of the
two-character substring `eq` (model of JS `s.split("eq")`). -/
def splitEqL : List Char → List (List Char)
  | [] => [[]]
  | [c] => [[c]]
  | c :: d :: rest =>
    if c = 'e' ∧ d = 'q' then [] :: splitEqL rest
    else
      match splitEqL (d :: rest) with
      | [] => [[c]]
      | x :: xs => (c :: x) :: xs

/-- Model of JS `s.split("eq")`. -/
def splitEqS (s : String) : List String := (splitEqL s.data).map (fun l => (⟨l⟩ : String))

/-- Split at every leftmost match of the eq-or-dash alternation regex
used by `_parseAttachmentLegacy` (JS `split` with that regex: at each
position the two-character pattern `eq` is tried before the dash). -/
def splitEqDashL : List Char → List (List Char)
  | [] => [[]]
  | [c] => if c = '-' then [[], []] else [[c]]
  | c :: d :: rest =>
    if c = 'e' ∧ d = 'q' then [] :: splitEqDashL rest
    else if c = '-' then [] :: splitEqDashL (d :: rest)
    else
      match splitEqDashL (d :: rest) with
      | [] => [[c]]
      | x :: xs => (c :: x) :: xs

/-- String version of `splitEqDashL`. -/
def splitEqDashS (s : String) : List String :=
  (splitEqDashL s.data).map (fun l => (⟨l⟩ : String))

/-- Remove the first occurrence of `pat` from a character list
(model of JS `s.replace(pat, "")` for a plain-string pattern). -/
def removeFirstL (pat : List Char) : List Char → List Char
  | [] => []
  | c :: rest =>
    if !pat.isEmpty && pat.isPrefixOf (c :: rest) then (c :: rest).drop pat.length
    else c :: removeFirstL pat rest

/-- Model of JS `s.replace(pat, "")`. -/
def removeFirstS (s pat : String) : String := ⟨removeFirstL pat.data s.data⟩

/-- Model of JS `s.replace(/"/g, "")`: delete every double quote. -/
def stripQuotes (s : String) : String := ⟨s.data.filter (fun c => !(c == '"'))⟩

/-- Model of JS `s.slice(a, b)` (character indices, `b` exclusive). -/
def sliceS (s : String) (a b : Nat) : String := ⟨(s.data.drop a).take (b - a)⟩

/-- Helper for the regex `/"(.*?)"/`: the characters up to (excluding)
the next double quote, or `none` when no closing quote exists. -/
def quotedSpan : List Char → Option (List Char)
  | [] => none
  | '"' :: _ => some []
  | c :: rest => (quotedSpan rest).map (fun l => c :: l)

/-- First group of the first match of `/"(.*?)"/`, or `[]` when the
regex does not match. -/
def extractQuotesL : List Char → List Char
  | [] => []
  | '"' :: rest =>
    match quotedSpan rest with
    | some v => v
    | none => []
  | _ :: rest => extractQuotesL rest

/-- Model of `_extractQuotes` of `hsx-runtime.js`: the content of the
first double-quoted substring, `""` when there is none. -/
def extractQuotes (s : String) : String := ⟨extractQuotesL s.data⟩

/-- Does the (already `trimEnd`-ed) line match the fence terminator
regex `/^}\s*$/` of `hsx-runtime.js`? -/
def isCloseBrace (s : String) : Bool :=
  match s.data with
  | '\x7d' :: rest => rest.all isWsChar
  | _ => false

/-- Insertion-ordered association-list update: JS property assignment
`obj[k] = v` (existing key keeps its position, new key is appended). -/
def setAssoc {κ α : Type} [DecidableEq κ] : List (κ × α) → κ → α → List (κ × α)
  | [], k, v => [(k, v)]
  | (k', v') :: t, k, v =>
    if k' = k then (k, v) :: t else (k', v') :: setAssoc t k v

/-- Association-list lookup: JS property read `obj[k]`. -/
def getAssoc {κ α : Type} [DecidableEq κ] : List (κ × α) → κ → Option α
  | [], _ => none
  | (k', v') :: t, k => if k' = k then some v' else getAssoc t k

/-- The concatenation `l₀ ++ "\n" ++ l₁ ++ "\n" ++ ...` produced by the
`body += lines[i] + "\n"` accumulation loops of `hsx-runtime.js`. -/
def joinNL : List String → String
  | [] => ""
  | l :: ls => l ++ "\n" ++ joinNL ls

/-! ## Model of `src/hsx-runtime.js` (class `HSXRuntime`, HSX v0.67)

State fields mirror the constructor; `pyodide` is `null` throughout
(nothing in `execute` initialises it), so `_runPy` is a no-op.
Observable collaborator calls (DOM/Renderer/ScriptHost) and console
output are recorded as events.  A JS exception that no `try`/`catch`
intercepts is modelled as `Except.error .jsThrow`; `fuelOut` only
signals exhaustion of the recursion fuel for module invocation. -/

/-- Observable collaborator calls and console output of `HSXRuntime`. -/
inductive HEvent where
  | attachMedia (kind src : String)
  | componentDefined (name : String)
  | renderComp (name body : String)
  | compNotFound (name : String)
  | runJS (code : String)
  | securityMode (sandboxOn : Bool)
  | modulesLoaded
  | moduleBodyLog (name : String)
  | combinedLog (name : String)
  | moduleExecuted (name : String)
  | moduleNotFound (name : String)
  | hsxSkipped
  | attachmentStored (key : String)
  | funStart
  | funFallback (code : String)
  | consoleLog (msg : String)
  | metaLine (line : String)
  deriving DecidableEq, Repr

/-- A value of the `modules` registry: `create > NAME` stores a
closure that only logs; `comb eq A+B+...` stores a closure that runs
the constituents in order. -/
inductive ModuleDef where
  | simple
  | combined (parts : List String)
  deriving DecidableEq, Repr

/-- The mutable instance state of `HSXRuntime` (the registries of the
constructor; `context`, `data` and `emotions` are never touched by
`execute` and are omitted). -/
structure HSXState where
  components : List (String × String)
  blocks : List (String × String)
  modules : List (String × ModuleDef)
  attachments : List (String × List String)
  metaTags : List String
  sandboxed : Bool
  deriving DecidableEq, Repr

/-- The constructor's initial state (`sandboxed = true` by default). -/
def hsxInit : HSXState := ⟨[], [], [], [], [], true⟩

/-- Abnormal outcomes: `jsThrow` is an uncaught JS exception,
`fuelOut` is exhaustion of the module-recursion fuel. -/
inductive RtErr where
  | fuelOut
  | jsThrow
  deriving DecidableEq, Repr

/-- Prepend already-produced events to the outcome of the rest of a
scan (events are only observable on the non-throwing path). -/
def contEvents (evs : List HEvent) :
    Except RtErr (HSXState × List HEvent) → Except RtErr (HSXState × List HEvent)
  | .ok (st, evs2) => .ok (st, evs ++ evs2)
  | .error e => .error e

/-- The `for (let m of mods) await this._runModule(m)` loop of a
combined module's closure, parameterised by the invocation of one
module. -/
def runModuleSeq (f : String → Except RtErr (List HEvent)) :
    List String → Except RtErr (List HEvent)
  | [] => .ok []
  | p :: ps =>
    match f p with
    | .ok evs =>
      match runModuleSeq f ps with
      | .ok evs2 => .ok (evs ++ evs2)
      | .error e => .error e
    | .error e => .error e

/-- Model of `_runModule(name)`: run a registered module closure,
warn when the name is absent. -/
def runModule : Nat → HSXState → String → Except RtErr (List HEvent)
  | 0, _, _ => .error .fuelOut
  | fuel + 1, st, name =>
    match getAssoc st.modules name with
    | some .simple => .ok [.moduleBodyLog name, .moduleExecuted name]
    | some (.combined parts) =>
      match runModuleSeq (fun p => runModule fuel st p) parts with
      | .ok evs =>
        .ok (evs ++ [.combinedLog (String.intercalate "+" parts), .moduleExecuted name])
      | .error e => .error e
    | none => .ok [.moduleNotFound name]

/-- The per-line body of `_runFun`. -/
def runFunLines : Nat → HSXState → List String → Except RtErr (List HEvent)
  | _, _, [] => .ok []
  | fuel, st, l :: rest =>
    let headE : Except RtErr (List HEvent) :=
      if endsWithS l ".ps" || endsWithS l ".ks" then runModule fuel st l
      else if startsWithS l "\x7bjs" then
        .ok [.runJS (jsTrim (removeFirstS (removeFirstS l "\x7bjs") "\x7d"))]
      else if startsWithS l "\x7bpy" then .ok []
      else .ok [.funFallback l]
    match headE with
    | .ok evs =>
      match runFunLines fuel st rest with
      | .ok evs2 => .ok (evs ++ evs2)
      | .error e => .error e
    | .error e => .error e

/-- Model of `_runFun(code)`: split on newlines and semicolons, trim,
drop empties, then run each piece. -/
def runFun (fuel : Nat) (st : HSXState) (code : String) : Except RtErr (List HEvent) :=
  let lines := ((splitPChar (fun c => c == '\n' || c == ';') code.data).map
    (fun l => jsTrim ⟨l⟩)).filter (fun l => l ≠ "")
  match runFunLines fuel st lines with
  | .ok evs => .ok (HEvent.funStart :: evs)
  | .error e => .error e

/-- Model of `_parseAttachmentLegacy(line)`.  When the line contains a
comma but no `eq`, the JS expression `line.split("eq")[1].split(",")`
reads `.split` of `undefined` and throws a `TypeError`: modelled as
`.error .jsThrow`. -/
def parseAttachmentLegacy (st : HSXState) (line : String) :
    Except RtErr (HSXState × List HEvent) :=
  let key := jsTrim (removeFirstS ((splitEqS line).headD "") "hsx:new")
  if includesS line "," then
    match (splitEqS line)[1]? with
    | none => .error .jsThrow
    | some rhs =>
      let val := (splitCharS rhs ',').map jsTrim
      .ok ({ st with attachments := setAssoc st.attachments key val },
        [.attachmentStored key])
  else
    let val := ((splitEqDashS line).drop 1).map jsTrim
    .ok ({ st with attachments := setAssoc st.attachments key val },
      [.attachmentStored key])

/-- The line loop of `_runHSXBlock` (reached only when the sandbox
flag is on, see `runHSXBlock`). -/
def runHSXLines (fuel : Nat) : HSXState → List String → Except RtErr (HSXState × List HEvent)
  | st, [] => .ok (st, [])
  | st, l :: rest =>
    if l = "" then runHSXLines fuel st rest
    else if endsWithS l ".ps" || endsWithS l ".ks" then
      match runModule fuel st (jsTrim l) with
      | .ok evs => contEvents evs (runHSXLines fuel st rest)
      | .error e => .error e
    else if includesS l "eq" || includesS l "-" || includesS l "," then
      match parseAttachmentLegacy st l with
      | .ok (st1, evs) => contEvents evs (runHSXLines fuel st1 rest)
      | .error e => .error e
    else if startsWithS l "hsx:fun" then
      match runFun fuel st (jsTrim (removeFirstS l "hsx:fun")) with
      | .ok evs => contEvents evs (runHSXLines fuel st rest)
      | .error e => .error e
    else if startsWithS l "\x7bjs" then
      contEvents [.runJS (jsTrim (removeFirstS (removeFirstS l "\x7bjs") "\x7d"))]
        (runHSXLines fuel st rest)
    else runHSXLines fuel st rest

/-- Model of `_runHSXBlock(code)` of v0.67: with the sandbox flag OFF
the whole block is refused with the skip diagnostic; with the flag ON
(the default) the body lines are interpreted by `runHSXLines`. -/
def runHSXBlock (fuel : Nat) (st : HSXState) (code : String) :
    Except RtErr (HSXState × List HEvent) :=
  if !st.sandboxed then .ok (st, [.hsxSkipped])
  else runHSXLines fuel st
    ((splitPChar (fun c => c == '\n') code.data).map (fun l => jsTrim ⟨l⟩))

/-- Model of `_handleModules(cmd)`.  `Load` returns early; the
`create` and `comb eq` branches are two consecutive (non-exclusive)
`if`s in the source. -/
def handleModules (st : HSXState) (cmd : String) :
    Except RtErr (HSXState × List HEvent) :=
  if startsWithS cmd "Load" then .ok (st, [.modulesLoaded])
  else
    let st1 :=
      if startsWithS cmd "create" then
        match (splitCharS cmd '>')[1]? with
        | some seg =>
          let name := jsTrim seg
          if name ≠ "" then { st with modules := setAssoc st.modules name .simple } else st
        | none => st
      else st
    if startsWithS cmd "comb eq" then
      match (splitEqS cmd)[1]? with
      | none => .error .jsThrow
      | some rhs =>
        let mods := (splitCharS rhs '+').map jsTrim
        .ok ({ st1 with
          modules := setAssoc st1.modules (String.intercalate "+" mods) (.combined mods) }, [])
    else .ok (st1, [])

/-- Model of `_handleNewHSXCommands(line)`. -/
def handleNewHSXCommands (st : HSXState) (line : String) : HSXState × List HEvent :=
  if startsWithS line "(hsx) hsx extract modules" then
    (st, [.consoleLog "HSX module extraction enabled"])
  else if startsWithS line "(hsx) module extraction" then
    (st, [.consoleLog "Module extraction flag set"])
  else if startsWithS line "(hsx) create new file" then
    (st, [.consoleLog "New file creation"])
  else if startsWithS line "(hsx) create new block" then
    let name := jsTrim (removeFirstS (removeFirstS line "(hsx) create new block cal it") ":)")
    ({ st with blocks := setAssoc st.blocks name "" }, [.consoleLog "Block created"])
  else if startsWithS line "(hsx) allow data and export" then
    (st, [.consoleLog "Data export enabled"])
  else if startsWithS line "(hsx) allow emotions" then
    (st, [.consoleLog "Emotions enabled"])
  else if startsWithS line "(hsx) allow meta data set" then
    (st, [.consoleLog "Meta data enabled"])
  else if startsWithS line "(hsx) make new meta data tag" then
    match (splitCharS line ':')[1]? with
    | some seg =>
      let tag := jsTrim seg
      if tag ≠ "" then
        ({ st with metaTags := if st.metaTags.contains tag then st.metaTags
            else st.metaTags ++ [tag] }, [.consoleLog "Meta tag registered"])
      else (st, [])
    | none => (st, [])
  else (st, [.consoleLog "HSX new command"])

/-- The fence-body scan of `execute`: consume raw lines until the
fence terminator; the terminator line itself is then skipped by the
`i++` of the enclosing `for` loop.  Off the end of input the collected
lines form the block. -/
def scanFence : List String → String × List String
  | [] => ("", [])
  | l :: rest =>
    if isCloseBrace l then ("", rest)
    else (l ++ "\n" ++ (scanFence rest).1, (scanFence rest).2)

/-- The component-body scan of `execute`: consume raw lines until one
starting with `hsx end` (which the enclosing loop then skips). -/
def scanComponent : List String → String × List String
  | [] => ("", [])
  | l :: rest =>
    if startsWithS l "hsx end" then ("", rest)
    else (l ++ "\n" ++ (scanComponent rest).1, (scanComponent rest).2)

/-- Model of the dispatch loop of `execute` of v0.67, over the already
split-and-`trimEnd`-ed line list.  One unit of `fuel` is spent per
loop step, so any `fuel` exceeding the number of lines is enough
(`hsxExecLines_isOk`); the source loop has no other recursion. -/
def hsxExecLines : Nat → HSXState → List String → Except RtErr (HSXState × List HEvent)
  | 0, _, _ => .error .fuelOut
  | _ + 1, st, [] => .ok (st, [])
  | fuel + 1, st, l0 :: rest =>
    let line := jsTrim l0
    if line = "" then hsxExecLines fuel st rest
    else if startsWithS line "hsx attach image" then
      contEvents [.attachMedia "img" (extractQuotes line)] (hsxExecLines fuel st rest)
    else if startsWithS line "hsx attach video" then
      contEvents [.attachMedia "video" (extractQuotes line)] (hsxExecLines fuel st rest)
    else if startsWithS line "hsx attach audio" then
      contEvents [.attachMedia "audio" (extractQuotes line)] (hsxExecLines fuel st rest)
    else if startsWithS line "hsx define component" then
      let name := jsTrim (removeFirstS line "hsx define component")
      contEvents [.componentDefined name]
        (hsxExecLines fuel
          { st with components := setAssoc st.components name (scanComponent rest).1 }
          (scanComponent rest).2)
    else if startsWithS line "hsx render" then
      let name := jsTrim (removeFirstS line "hsx render")
      match getAssoc st.components name with
      | some body =>
        if body ≠ "" then contEvents [.renderComp name body] (hsxExecLines fuel st rest)
        else contEvents [.compNotFound name] (hsxExecLines fuel st rest)
      | none => contEvents [.compNotFound name] (hsxExecLines fuel st rest)
    else if startsWithS line "\x7bjs" || startsWithS line "\x7bpy" || startsWithS line "\x7bhsx" then
      let typ := sliceS line 1 3
      if typ = "js" then
        contEvents [.runJS (scanFence rest).1] (hsxExecLines fuel st (scanFence rest).2)
      else if typ = "py" then hsxExecLines fuel st (scanFence rest).2
      else if typ = "hsx" then
        match runHSXBlock fuel st (scanFence rest).1 with
        | .ok (st1, evs) => contEvents evs (hsxExecLines fuel st1 (scanFence rest).2)
        | .error e => .error e
      else hsxExecLines fuel st (scanFence rest).2
    else if startsWithS line "hsx security" then
      let sb := jsTrim (removeFirstS line "hsx security") != "off"
      contEvents [.securityMode sb] (hsxExecLines fuel { st with sandboxed := sb } rest)
    else if startsWithS line "hsx modules:" then
      match handleModules st (jsTrim (removeFirstS line "hsx modules:")) with
      | .ok (st1, evs) => contEvents evs (hsxExecLines fuel st1 rest)
      | .error e => .error e
    else if startsWithS line "hsx:" || startsWithS line "(hsx)" then
      contEvents (handleNewHSXCommands st line).2
        (hsxExecLines fuel (handleNewHSXCommands st line).1 rest)
    else if startsWithS line "(funny)" then
      let name := jsTrim ((splitCharS (removeFirstS line "(funny)") ':').headD "")
      let content :=
        String.intercalate "\n" (rest.takeWhile (fun l => !(startsWithS l "(funny)")))
      contEvents [.consoleLog "Funny block created"]
        (hsxExecLines fuel { st with blocks := setAssoc st.blocks name content } rest)
    else contEvents [.metaLine line] (hsxExecLines fuel st rest)

/-- Model of `execute(code)` on a fresh `HSXRuntime` instance: split
on newlines, `trimEnd` each line, run the dispatch loop. -/
def hsxExecute (fuel : Nat) (code : String) : Except RtErr (HSXState × List HEvent) :=
  hsxExecLines fuel hsxInit
    ((splitPChar (fun c => c == '\n') code.data).map (fun l => jsTrimEnd ⟨l⟩))

/-! ## Model of `src/Engine.js` (class `HSXEngine`)

Storage tables are JS objects shared by reference: an explicit `heap`
maps numeric references to tables, and the registries hold references.
This is what makes the aliasing behaviour of `embedPhysic` (which
copies the reference, not the table) expressible. -/

/-- A data property created by `Object.defineProperty` (the hidden
`_physic_<name>` slots). -/
structure HiddenProp where
  value : Option Nat
  writable : Bool
  enumerable : Bool
  configurable : Bool
  deriving DecidableEq, Repr

/-- One record of the `bots:` table (`formats` is always the empty
object and is omitted).  Fields missing from the comma-split line are
`undefined`, i.e. `none`. -/
structure BotRecord where
  name : Option String
  bot : Option String
  meta : Option String
  deriving DecidableEq, Repr

/-- The mutable instance state of `HSXEngine`.  `physicStorage` can
hold `undefined` (when a name is embedded without a visible storage),
hence `Option Nat` values there. -/
structure EngineState where
  heap : List (Nat × List (String × String))
  nextRef : Nat
  botsRecords : Option (List BotRecord)
  customDatabaseBlocks : List (String × List String)
  storages : List (String × Nat)
  physicStorage : List (String × Option Nat)
  customStorages : List (String × Nat)
  customCodeLines : List (String × String)
  hiddenProps : List (String × HiddenProp)
  deriving DecidableEq, Repr

/-- The constructor's initial state. -/
def engineInit : EngineState := ⟨[], 0, none, [], [], [], [], [], []⟩

/-- `Object.defineProperty(this, key, { value, writable: true,
enumerable: false })` with `configurable` absent.  The ECMAScript
validation throws a `TypeError` only when an existing non-configurable
property differs in `enumerable` or is non-writable; otherwise the
property is (re)defined with `configurable` defaulting to `false` for
a fresh property and kept for an existing one. -/
def definePropertyNE (props : List (String × HiddenProp)) (key : String) (v : Option Nat) :
    Except RtErr (List (String × HiddenProp)) :=
  match getAssoc props key with
  | none => .ok (setAssoc props key ⟨v, true, false, false⟩)
  | some cur =>
    if cur.configurable then .ok (setAssoc props key ⟨v, true, false, cur.configurable⟩)
    else if cur.enumerable then .error .jsThrow
    else if !cur.writable then .error .jsThrow
    else .ok (setAssoc props key ⟨v, true, false, cur.configurable⟩)

/-- Model of `embedPhysic(storageName)`: store the current
`storages[storageName]` reference in `physicStorage` and in the hidden
non-enumerable instance property `_physic_<storageName>`. -/
def embedPhysic (st : EngineState) (name : String) : Except RtErr EngineState :=
  let v := getAssoc st.storages name
  let st1 := { st with physicStorage := setAssoc st.physicStorage name v }
  match definePropertyNE st1.hiddenProps ("_physic_" ++ name) v with
  | .ok props => .ok { st1 with hiddenProps := props }
  | .error e => .error e

/-- Allocate a fresh empty table (the object literal of `??= \x7b\x7d`). -/
def allocTable (st : EngineState) : EngineState × Nat :=
  ({ st with heap := setAssoc st.heap st.nextRef [], nextRef := st.nextRef + 1 }, st.nextRef)

/-- `this.storages[name] ??= \x7b\x7d`. -/
def ensureStorage (st : EngineState) (name : String) : EngineState :=
  match getAssoc st.storages name with
  | some _ => st
  | none =>
    let p := allocTable st
    { p.1 with storages := setAssoc p.1.storages name p.2 }

/-- Model of `createCustomStorage(name)`:
`customStorages[name] ??= \x7b\x7d`. -/
def createCustomStorage (st : EngineState) (name : String) : EngineState :=
  match getAssoc st.customStorages name with
  | some _ => st
  | none =>
    let p := allocTable st
    { p.1 with customStorages := setAssoc p.1.customStorages name p.2 }

/-- Set field `k` of the table behind reference `r` (JS `obj[k] = v`
through a shared reference). -/
def heapSetField (st : EngineState) (r : Nat) (k v : String) : EngineState :=
  match getAssoc st.heap r with
  | some tbl => { st with heap := setAssoc st.heap r (setAssoc tbl k v) }
  | none => st

/-- One iteration of the field loops: `let [k, v] =
lines[i].split("=").map(x => x.trim())` followed by
`table[k] = v.replace(quote-regex, "")` on the table behind `r`
(reached only for lines containing an equals sign). -/
def assignFieldLine (st : EngineState) (r : Nat) (l : String) : EngineState :=
  let parts := (splitCharS l '=').map jsTrim
  heapSetField st r (parts.headD "") (stripQuotes ((parts[1]?).getD ""))

/-- Field assignment through the visible entry: what
`this.storages[name][k] = v` does to the engine state. -/
def storageAssign (st : EngineState) (name k v : String) : EngineState :=
  match getAssoc st.storages name with
  | some r => heapSetField st r k v
  | none => st

/-- The table visible through `storages[name]`. -/
def storageDeref (st : EngineState) (name : String) : Option (List (String × String)) :=
  match getAssoc st.storages name with
  | some r => getAssoc st.heap r
  | none => none

/-- The table visible through `physicStorage[name]`. -/
def physicDeref (st : EngineState) (name : String) : Option (List (String × String)) :=
  match getAssoc st.physicStorage name with
  | some (some r) => getAssoc st.heap r
  | _ => none

/-- The table visible through the hidden `_physic_<name>` property. -/
def hiddenDeref (st : EngineState) (name : String) : Option (List (String × String)) :=
  match getAssoc st.hiddenProps ("_physic_" ++ name) with
  | some p =>
    match p.value with
    | some r => getAssoc st.heap r
    | none => none
  | none => none

/-- Record scan (`while (lines[i]?.trim().startsWith(";:"))`): consume
raw lines whose trimmed form starts with the record marker; optional
chaining makes the end of input an implicit terminator. -/
def scanRecords : List String → List String × List String
  | [] => ([], [])
  | l :: rest =>
    if startsWithS (jsTrim l) ";:" then
      (l :: (scanRecords rest).1, (scanRecords rest).2)
    else ([], l :: rest)

/-- Field scan (`while (lines[i]?.includes("="))`): consume raw lines
containing an equals sign; end of input is an implicit terminator. -/
def scanFields : List String → List String × List String
  | [] => ([], [])
  | l :: rest =>
    if includesS l "=" then (l :: (scanFields rest).1, (scanFields rest).2)
    else ([], l :: rest)

/-- Parse one bots record line: strip the first record marker, trim,
split on commas, trim the pieces, destructure into three fields. -/
def parseBotLine (l : String) : BotRecord :=
  let parts := (splitCharS (jsTrim (removeFirstS l ";:")) ',').map jsTrim
  ⟨parts[0]?, parts[1]?, parts[2]?⟩

/-- The CCCL block scan `while (lines[i]?.trim() !== "}")`.  Past the
end of input the condition still holds (`undefined !== "}"`), so the
JS loop never exits: the model keeps looping on the empty rest until
the fuel is gone.  With a terminator line it returns the collected
block and the lines after the brace. -/
def ccclScan : Nat → List String → Except RtErr (List String × List String)
  | 0, _ => .error .fuelOut
  | fuel + 1, [] =>
    match ccclScan fuel [] with
    | .ok r => .ok r
    | .error e => .error e
  | fuel + 1, l :: rest =>
    if jsTrim l = "\x7d" then .ok ([], rest)
    else
      match ccclScan fuel rest with
      | .ok p => .ok (l :: p.1, p.2)
      | .error e => .error e

/-- Model of the `while` dispatch loop of `HSXEngine.run`: one unit of
fuel per iteration and per nested `run` call. -/
def engineRunLines : Nat → EngineState → List String → Except RtErr EngineState
  | 0, _, _ => .error .fuelOut
  | _ + 1, st, [] => .ok st
  | fuel + 1, st, l0 :: rest =>
    let line := jsTrim l0
    if line = "bots:" then
      let base := st.botsRecords.getD []
      engineRunLines fuel
        { st with botsRecords := some (base ++ (scanRecords rest).1.map parseBotLine) }
        (scanRecords rest).2
    else if line = ":Hsx:" then
      match rest with
      | [] => .ok st
      | nl :: rest2 =>
        let next := jsTrim nl
        if startsWithS next "$" then
          let storageName := jsTrim (removeFirstS next "$")
          let stA := ensureStorage st storageName
          let r := (getAssoc stA.storages storageName).getD 0
          let stB := (scanFields rest2).1.foldl (fun s l => assignFieldLine s r l) stA
          match embedPhysic stB storageName with
          | .ok stC => engineRunLines fuel stC (scanFields rest2).2
          | .error e => .error e
        else if startsWithS next "create storage" then
          let storageName := jsTrim (String.intercalate " " ((splitCharS next ' ').drop 2))
          let stA := createCustomStorage st storageName
          let r := (getAssoc stA.customStorages storageName).getD 0
          let stB := (scanFields rest2).1.foldl (fun s l => assignFieldLine s r l) stA
          engineRunLines fuel stB (scanFields rest2).2
        else if endsWithS next ":" && !startsWithS next "$" then
          let dbName := removeFirstS next ":"
          let base := (getAssoc st.customDatabaseBlocks dbName).getD []
          engineRunLines fuel
            { st with customDatabaseBlocks := (setAssoc st.customDatabaseBlocks dbName
              (base ++ (scanRecords rest2).1.map (fun l => jsTrim (removeFirstS l ";:")))) }
            (scanRecords rest2).2
        else engineRunLines fuel st (nl :: rest2)
    else if startsWithS line "CCCL" then
      let name := ((splitCharS line ' ')[1]?).getD "undefined"
      match ccclScan fuel rest with
      | .ok p =>
        engineRunLines fuel
          { st with customCodeLines := (setAssoc st.customCodeLines name
            (String.intercalate "\n" p.1)) } p.2
      | .error e => .error e
    else
      match getAssoc st.customCodeLines line with
      | some body =>
        if body ≠ "" then
          match engineRunLines fuel st (splitCharS body '\n') with
          | .ok st1 => engineRunLines fuel st1 rest
          | .error e => .error e
        else engineRunLines fuel st rest
      | none => engineRunLines fuel st rest

/-- Model of `HSXEngine.run(code)`. -/
def engineRun (fuel : Nat) (st : EngineState) (code : String) : Except RtErr EngineState :=
  engineRunLines fuel st (splitCharS code '\n')

/-- The run never completes, whichever fuel bound is allowed: the
model of a JS loop that never exits. -/
def engineDiverges (code : String) : Prop :=
  ∀ fuel : Nat, engineRun fuel engineInit code = .error .fuelOut

/-- A small engine state with one visible storage `s` (reference 0,
empty table), not yet embedded. -/
def engineStateS0 : EngineState :=
  { engineInit with heap := [(0, [])], nextRef := 1, storages := [("s", 0)] }

/-- The state produced by running `:Hsx:` followed by `$s`: storage
`s` exists and has been embedded as a physic storage. -/
def engineStateS : EngineState :=
  { engineInit with
    heap := [(0, [])], nextRef := 1, storages := [("s", 0)],
    physicStorage := [("s", some 0)],
    hiddenProps := [("_physic_s", ⟨some 0, true, false, false⟩)] }

/-! ## Infrastructure lemmas -/

theorem scanFence_rest_length (ls : List String) : (scanFence ls).2.length ≤ ls.length := by
  induction ls with
  | nil => simp [scanFence]
  | cons l rest ih =>
    simp only [scanFence]
    by_cases h : isCloseBrace l = true
    · simp [h]
    · simp only [h, if_false]
      exact Nat.le_succ_of_le ih

theorem scanComponent_rest_length (ls : List String) :
    (scanComponent ls).2.length ≤ ls.length := by
  induction ls with
  | nil => simp [scanComponent]
  | cons l rest ih =>
    simp only [scanComponent]
    by_cases h : startsWithS l "hsx end" = true
    · simp [h]
    · simp only [h, if_false]
      exact Nat.le_succ_of_le ih

theorem getAssoc_setAssoc_self {κ α : Type} [DecidableEq κ]
    (l : List (κ × α)) (k : κ) (v : α) : getAssoc (setAssoc l k v) k = some v := by
  induction l with
  | nil => simp [setAssoc, getAssoc]
  | cons p t ih =>
    by_cases h : p.1 = k
    · simp [setAssoc, getAssoc, h]
    · simp [setAssoc, getAssoc, h, ih]

theorem getAssoc_setAssoc_ne {κ α : Type} [DecidableEq κ]
    (l : List (κ × α)) (k k' : κ) (v : α) (h : k' ≠ k) :
    getAssoc (setAssoc l k v) k' = getAssoc l k' := by
  induction l with
  | nil => simp [setAssoc, getAssoc, Ne.symm h]
  | cons p t ih =>
    by_cases hp : p.1 = k
    · simp [setAssoc, getAssoc, hp, Ne.symm h]
    · simp [setAssoc, getAssoc, hp, ih]

/-- Updating a key that is already present does not change the key
list: no second entry appears. -/
theorem setAssoc_keys_of_mem {κ α : Type} [DecidableEq κ]
    (l : List (κ × α)) (k : κ) (v v₀ : α) (h : getAssoc l k = some v₀) :
    (setAssoc l k v).map Prod.fst = l.map Prod.fst := by
  induction l with
  | nil => simp [getAssoc] at h
  | cons p t ih =>
    by_cases hp : p.1 = k
    · simp [setAssoc, hp]
    · simp [getAssoc, hp] at h
      simp [setAssoc, hp, ih h]

theorem splitEqL_ne_nil (l : List Char) : splitEqL l ≠ [] := by
  induction l using splitEqL.induct with
  | case1 => simp [splitEqL]
  | case2 c => simp [splitEqL]
  | case3 c d rest h ih =>
    simp [splitEqL, if_pos h]
  | case4 c d rest h hm ih => exact absurd hm ih
  | case5 c d rest h x xs hm ih =>
    simp [splitEqL, if_neg h, hm]

/-- A line starting with `comb eq` splits at its `eq` into the prefix
`comb ` and the split of the tail, so index 1 exists. -/
theorem splitEqS_comb (t : List Char) :
    splitEqL ("comb eq".data ++ t) = "comb ".data :: splitEqL t := rfl

/-- `dropWhile` of a list onto itself, from a length argument. -/
theorem dropWhile_eq_self_of_length {p : Char → Bool} {l : List Char}
    (h : (l.dropWhile p).length = l.length) : l.dropWhile p = l :=
  (List.dropWhile_suffix p).sublist.eq_of_length h

/-- A string fixed by `trim` is fixed by each one-sided trim. -/
theorem trimmed_parts {l : List Char} (h : trimL l = l) :
    dropWs l = l ∧ trimRightL l = l := by
  have h1 : (dropWs l).length ≤ l.length := by
    simpa [dropWs] using List.Sublist.length_le (List.dropWhile_sublist (l := l) (p := isWsChar))
  have h2 : (trimRightL (dropWs l)).length ≤ (dropWs l).length := by
    simpa [trimRightL] using
      List.Sublist.length_le (List.dropWhile_sublist (l := (dropWs l).reverse) (p := isWsChar))
  have hlen : (trimL l).length = l.length := by rw [h]
  have e1 : (dropWs l).length = l.length := by
    simp only [trimL] at hlen
    omega
  have hd : dropWs l = l := dropWhile_eq_self_of_length e1
  refine ⟨hd, ?_⟩
  have : trimL l = trimRightL l := by rw [trimL, hd]
  rw [← this, h]

/-- `trimRightL` over an append splits on whether the right part is
all whitespace. -/
theorem trimRightL_append (a b : List Char) :
    trimRightL (a ++ b) =
      if trimRightL b = [] then trimRightL a else a ++ trimRightL b := by
  simp only [trimRightL, List.reverse_append, List.dropWhile_append]
  by_cases h : (b.reverse.dropWhile isWsChar).isEmpty = true
  · simp only [h, if_true]
    have : b.reverse.dropWhile isWsChar = [] := by simpa using h
    simp [this]
  · simp only [h, if_false]
    have hne : b.reverse.dropWhile isWsChar ≠ [] := by simpa using h
    have : (b.reverse.dropWhile isWsChar).reverse ≠ [] := by simpa using hne
    simp [this]

/-- The fence-tag slice `line.slice(1, 3)` has at most two characters,
so it can never equal the three-character tag `hsx`: the nested-HSX
dispatch branch of `execute` is unreachable. -/
theorem sliceS_one_three_ne_hsx (l : String) : sliceS l 1 3 ≠ "hsx" := by
  intro h
  have hlen : (sliceS l 1 3).data.length ≤ 2 := by
    simp [sliceS, List.length_take]
  rw [h] at hlen
  simp at hlen

theorem contEvents_isOk {evs : List HEvent} {r : Except RtErr (HSXState × List HEvent)}
    (h : ∃ p, r = .ok p) : ∃ p, contEvents evs r = .ok p := by
  obtain ⟨⟨st2, e2⟩, hp⟩ := h
  exact ⟨(st2, evs ++ e2), by rw [hp]; rfl⟩

/-- `_handleModules` never throws: in the `comb eq` branch the split
at `eq` always has a segment at index 1, because the command starts
with `comb eq`. -/
theorem handleModules_isOk (st : HSXState) (cmd : String) :
    ∃ p, handleModules st cmd = .ok p := by
  unfold handleModules
  by_cases h1 : startsWithS cmd "Load" = true
  · rw [if_pos h1]
    exact ⟨_, rfl⟩
  rw [if_neg h1]
  by_cases h2 : startsWithS cmd "comb eq" = true
  · obtain ⟨t, ht⟩ := List.isPrefixOf_iff_prefix.mp h2
    have hq : splitEqL cmd.data = "comb ".data :: splitEqL t := by
      rw [← ht]
      exact splitEqS_comb t
    have hsp : splitEqS cmd =
        (⟨"comb ".data⟩ : String) :: (splitEqL t).map (fun l => (⟨l⟩ : String)) := by
      unfold splitEqS
      rw [hq, List.map_cons]
    obtain ⟨x, xs, hm⟩ := List.exists_cons_of_ne_nil
      (by simp [splitEqL_ne_nil t] :
        (splitEqL t).map (fun l => (⟨l⟩ : String)) ≠ [])
    rw [if_pos h2, hsp, hm]
    simp only [List.getElem?_cons_succ, List.getElem?_cons_zero]
    exact ⟨_, rfl⟩
  · rw [if_neg h2]
    exact ⟨_, rfl⟩

/-- Totality of the `execute` dispatch loop of v0.67: with fuel
exceeding the line count, the loop always returns normally.  The
nested-HSX fence branch — the only dispatch that could raise — is
unreachable because the fence-tag slice has at most two characters. -/
theorem hsxExecLines_isOk :
    ∀ (fuel : Nat) (st : HSXState) (lines : List String), lines.length < fuel →
      ∃ p, hsxExecLines fuel st lines = .ok p := by
  intro fuel
  induction fuel with
  | zero =>
    intro st lines h
    omega
  | succ fuel ih =>
    intro st lines h
    match lines with
    | [] => exact ⟨(st, []), rfl⟩
    | l0 :: rest =>
      have hrest : rest.length < fuel := by
        simp only [List.length_cons] at h
        omega
      have hcomp : (scanComponent rest).2.length < fuel :=
        Nat.lt_of_le_of_lt (scanComponent_rest_length rest) hrest
      have hfen : (scanFence rest).2.length < fuel :=
        Nat.lt_of_le_of_lt (scanFence_rest_length rest) hrest
      obtain ⟨⟨stm, evm⟩, hpm⟩ :=
        handleModules_isOk st (jsTrim (removeFirstS (jsTrim l0) "hsx modules:"))
      simp only [hsxExecLines]
      by_cases h1 : jsTrim l0 = ""
      · simp only [if_pos h1]
        exact ih _ _ hrest
      simp only [if_neg h1]
      by_cases h2 : startsWithS (jsTrim l0) "hsx attach image" = true
      · simp only [if_pos h2]
        exact contEvents_isOk (ih _ _ hrest)
      simp only [if_neg h2]
      by_cases h3 : startsWithS (jsTrim l0) "hsx attach video" = true
      · simp only [if_pos h3]
        exact contEvents_isOk (ih _ _ hrest)
      simp only [if_neg h3]
      by_cases h4 : startsWithS (jsTrim l0) "hsx attach audio" = true
      · simp only [if_pos h4]
        exact contEvents_isOk (ih _ _ hrest)
      simp only [if_neg h4]
      by_cases h5 : startsWithS (jsTrim l0) "hsx define component" = true
      · simp only [if_pos h5]
        exact contEvents_isOk (ih _ _ hcomp)
      simp only [if_neg h5]
      by_cases h6 : startsWithS (jsTrim l0) "hsx render" = true
      · simp only [if_pos h6]
        cases hg : getAssoc st.components (jsTrim (removeFirstS (jsTrim l0) "hsx render")) with
        | none =>
          simp only [hg]
          exact contEvents_isOk (ih _ _ hrest)
        | some body =>
          simp only [hg]
          by_cases hb : body ≠ ""
          · simp only [if_pos hb]
            exact contEvents_isOk (ih _ _ hrest)
          · simp only [if_neg hb]
            exact contEvents_isOk (ih _ _ hrest)
      simp only [if_neg h6]
      by_cases h7 : (startsWithS (jsTrim l0) "\x7bjs" || startsWithS (jsTrim l0) "\x7bpy" ||
          startsWithS (jsTrim l0) "\x7bhsx") = true
      · simp only [if_pos h7]
        by_cases hjs : sliceS (jsTrim l0) 1 3 = "js"
        · simp only [if_pos hjs]
          exact contEvents_isOk (ih _ _ hfen)
        simp only [if_neg hjs]
        by_cases hpy : sliceS (jsTrim l0) 1 3 = "py"
        · simp only [if_pos hpy]
          exact ih _ _ hfen
        simp only [if_neg hpy, if_neg (sliceS_one_three_ne_hsx (jsTrim l0))]
        exact ih _ _ hfen
      simp only [if_neg h7]
      by_cases h8 : startsWithS (jsTrim l0) "hsx security" = true
      · simp only [if_pos h8]
        exact contEvents_isOk (ih _ _ hrest)
      simp only [if_neg h8]
      by_cases h9 : startsWithS (jsTrim l0) "hsx modules:" = true
      · simp only [if_pos h9, hpm]
        exact contEvents_isOk (ih _ _ hrest)
      simp only [if_neg h9]
      by_cases h10 : (startsWithS (jsTrim l0) "hsx:" || startsWithS (jsTrim l0) "(hsx)") = true
      · simp only [if_pos h10]
        exact contEvents_isOk (ih _ _ hrest)
      simp only [if_neg h10]
      by_cases h11 : startsWithS (jsTrim l0) "(funny)" = true
      · simp only [if_pos h11]
        exact contEvents_isOk (ih _ _ hrest)
      simp only [if_neg h11]
      exact contEvents_isOk (ih _ _ hrest)

/-- A nonempty list with a non-whitespace head is fixed by `dropWs`,
and appending to it keeps that. -/
theorem dropWs_append_of_head {a : List Char} (b : List Char)
    (ha : a ≠ []) (h : dropWs a = a) : dropWs (a ++ b) = a ++ b := by
  match a, ha with
  | c :: as, _ =>
    have hc : isWsChar c = false := by
      by_contra hc
      have hc' : isWsChar c = true := by revert hc; cases isWsChar c <;> simp
      have : dropWs (c :: as) = dropWs as := by simp [dropWs, List.dropWhile_cons, hc']
      rw [this] at h
      have := congrArg List.length h
      have hle : (dropWs as).length ≤ as.length := by
        simpa [dropWs] using
          List.Sublist.length_le (List.dropWhile_sublist (l := as) (p := isWsChar))
      simp at this
      omega
    simp [dropWs, List.dropWhile_cons, hc]

theorem jsTrim_eq_data {t : String} (ht : jsTrim t = t) : trimL t.data = t.data :=
  congrArg String.data ht

/-- Trimming a literal directive prefix followed by an already trimmed
suffix: the prefix's head keeps the left end, and the right end is the
suffix's unless the suffix is empty. -/
theorem jsTrim_lit_append (p t : String)
    (hp : p.data ≠ []) (hph : dropWs p.data = p.data) (ht : jsTrim t = t) :
    jsTrim (p ++ t) = if t = "" then (⟨trimRightL p.data⟩ : String) else p ++ t := by
  obtain ⟨htl, htr⟩ := trimmed_parts (jsTrim_eq_data ht)
  have hdata : (p ++ t).data = p.data ++ t.data := rfl
  have h1 : jsTrim (p ++ t) = ⟨trimRightL (p.data ++ t.data)⟩ := by
    simp only [jsTrim, trimL, hdata, dropWs_append_of_head t.data hp hph]
  rw [h1, trimRightL_append, htr]
  by_cases he : t = ""
  · have : t.data = [] := by rw [he]
    simp [he, this]
  · have : t.data ≠ [] := fun hc => he (by
      have := congrArg (fun l => (⟨l⟩ : String)) hc
      simpa using this)
    simp only [if_neg this, if_neg he]
    rfl

/-- Trimming a single leading space off an already trimmed string. -/
theorem jsTrim_space_cons (t : String) (ht : jsTrim t = t) :
    jsTrim (⟨' ' :: t.data⟩ : String) = t := by
  obtain ⟨htl, htr⟩ := trimmed_parts (jsTrim_eq_data ht)
  show (⟨trimL (' ' :: t.data)⟩ : String) = t
  have h1 : trimL (' ' :: t.data) = trimL t.data := by
    simp [trimL, dropWs, List.dropWhile_cons, isWsChar]
  rw [h1, jsTrim_eq_data ht]

/-- The CCCL scan never completes when no remaining line trims to the
closing brace: every fuel bound is exhausted. -/
theorem ccclScan_stuck (fuel : Nat) :
    ∀ ls : List String, (∀ l ∈ ls, jsTrim l ≠ "\x7d") →
      ccclScan fuel ls = .error .fuelOut := by
  induction fuel with
  | zero => intro ls _; rfl
  | succ fuel ih =>
    intro ls h
    match ls with
    | [] => simp [ccclScan, ih [] (by simp)]
    | l :: rest =>
      have hl : jsTrim l ≠ "\x7d" := h l (by simp)
      simp only [ccclScan, if_neg hl, ih rest (fun x hx => h x (by simp [hx]))]

/-- The property written by `definePropertyNE` always carries the new
value with `writable: true, enumerable: false`. -/
theorem definePropertyNE_ok_value {props props' : List (String × HiddenProp)}
    {key : String} {v : Option Nat}
    (h : definePropertyNE props key v = .ok props') :
    ∃ b, getAssoc props' key = some ⟨v, true, false, b⟩ := by
  cases hcur : getAssoc props key with
  | none =>
    simp only [definePropertyNE, hcur, Except.ok.injEq] at h
    subst h
    exact ⟨false, getAssoc_setAssoc_self _ _ _⟩
  | some cur =>
    simp only [definePropertyNE, hcur] at h
    by_cases hc : cur.configurable = true
    · rw [if_pos hc] at h
      simp only [Except.ok.injEq] at h
      subst h
      exact ⟨cur.configurable, getAssoc_setAssoc_self _ _ _⟩
    · rw [if_neg hc] at h
      by_cases he : cur.enumerable = true
      · rw [if_pos he] at h
        simp at h
      · rw [if_neg he] at h
        by_cases hw : (!cur.writable) = true
        · rw [if_pos hw] at h
          simp at h
        · rw [if_neg hw] at h
          simp only [Except.ok.injEq] at h
          subst h
          exact ⟨cur.configurable, getAssoc_setAssoc_self _ _ _⟩

/-- Redefining a hidden slot previously created by `embedPhysic`
(non-configurable but writable, non-enumerable) succeeds and just
replaces the value. -/
theorem definePropertyNE_redef {props : List (String × HiddenProp)} {key : String}
    {v₀ : Option Nat} (v : Option Nat)
    (h : getAssoc props key = some ⟨v₀, true, false, false⟩) :
    definePropertyNE props key v = .ok (setAssoc props key ⟨v, true, false, false⟩) := by
  unfold definePropertyNE
  rw [h]
  rfl

/-- What a successful `embedPhysic` does to the engine state. -/
theorem embedPhysic_ok_spec {st st1 : EngineState} {name : String}
    (h : embedPhysic st name = .ok st1) :
    st1.storages = st.storages ∧ st1.heap = st.heap ∧
    st1.customStorages = st.customStorages ∧
    st1.physicStorage = setAssoc st.physicStorage name (getAssoc st.storages name) ∧
    ∃ q : HiddenProp, getAssoc st1.hiddenProps ("_physic_" ++ name) = some q ∧
      q.value = getAssoc st.storages name := by
  simp only [embedPhysic] at h
  cases hd : definePropertyNE st.hiddenProps ("_physic_" ++ name)
      (getAssoc st.storages name) with
  | error e =>
    rw [hd] at h
    simp at h
  | ok props =>
    rw [hd] at h
    simp only [Except.ok.injEq] at h
    subst h
    obtain ⟨b, hb⟩ := definePropertyNE_ok_value hd
    exact ⟨rfl, rfl, rfl, rfl, ⟨_, hb, rfl⟩⟩

/-- A first embedding of a name whose hidden slot does not exist yet. -/
theorem embedPhysic_fresh {st : EngineState} {name : String}
    (hfresh : getAssoc st.hiddenProps ("_physic_" ++ name) = none) :
    embedPhysic st name = .ok { st with
      physicStorage := setAssoc st.physicStorage name (getAssoc st.storages name),
      hiddenProps := setAssoc st.hiddenProps ("_physic_" ++ name)
        ⟨getAssoc st.storages name, true, false, false⟩ } := by
  have hd : definePropertyNE st.hiddenProps ("_physic_" ++ name)
      (getAssoc st.storages name) =
      .ok (setAssoc st.hiddenProps ("_physic_" ++ name)
        ⟨getAssoc st.storages name, true, false, false⟩) := by
    unfold definePropertyNE
    rw [hfresh]
  simp only [embedPhysic]
  rw [hd]

/-- Scanning through a component body: the lines before the first
`hsx end` line are captured (each with a trailing newline) and the
terminator line is skipped. -/
theorem scanComponent_through (l : String) (rest : List String)
    (hl : startsWithS l "hsx end" = true) :
    ∀ bs : List String, (∀ x ∈ bs, startsWithS x "hsx end" = false) →
      scanComponent (bs ++ l :: rest) = (joinNL bs, rest) := by
  intro bs
  induction bs with
  | nil =>
    intro _
    simp [scanComponent, hl, joinNL]
  | cons b bs ih =>
    intro hbs
    have hb := hbs b (by simp)
    have ihh := ih (fun x hx => hbs x (by simp [hx]))
    simp [scanComponent, hb, ihh, joinNL]

theorem joinNL_ne_empty (b : String) (bs : List String) : joinNL (b :: bs) ≠ "" := by
  intro hc
  have h2 : (joinNL (b :: bs)).data.length = 0 := by rw [hc]; rfl
  have h3 : (joinNL (b :: bs)).data = (b.data ++ ['\n']) ++ (joinNL bs).data := rfl
  rw [h3] at h2
  simp at h2

/-! ## Claim theorems -/

/-- C5, counterexample: the claim predicts values `["b"]` for the
dash-fallback input `name eq a-b`, but `_parseAttachmentLegacy` stores
`["a", "b"]` — `slice(1)` keeps every segment after the first, not
just the last. -/
theorem c5_counterexample :
    parseAttachmentLegacy hsxInit "name eq a-b" =
      .ok ({ hsxInit with attachments := [("name", ["a", "b"])] },
        [.attachmentStored "name"]) ∧
    (["a", "b"] : List String) ≠ ["b"] := ⟨by decide, by decide⟩

/-- C5, amended: `name eq a,b,c` yields key `name` and values
`["a","b","c"]`; `name eq a-b` (no comma) yields, via the eq-or-dash
fallback split, values `["a","b"]` (all segments after the first). -/
theorem c5_amended :
    parseAttachmentLegacy hsxInit "name eq a,b,c" =
      .ok ({ hsxInit with attachments := [("name", ["a", "b", "c"])] },
        [.attachmentStored "name"]) ∧
    parseAttachmentLegacy hsxInit "name eq a-b" =
      .ok ({ hsxInit with attachments := [("name", ["a", "b"])] },
        [.attachmentStored "name"]) := ⟨by decide, by decide⟩

/-- C1, counterexample: with the sandbox flag OFF, `_runHSXBlock`
refuses the body with the skip diagnostic and performs no execution at
all (the attachment line is not parsed, the state is unchanged) —
contrary to the claim that with sandboxing off the body is recursively
executed. -/
theorem c1_counterexample :
    runHSXBlock 5 { hsxInit with sandboxed := false } "foo eq a" =
      .ok ({ hsxInit with sandboxed := false }, [.hsxSkipped]) ∧
    ({ hsxInit with sandboxed := false } : HSXState).attachments = [] :=
  ⟨by decide, rfl⟩

/-- C1, amended: the gate is the reverse of the claim.  With the
sandbox flag OFF every `_runHSXBlock` call produces only the skip
diagnostic and leaves the state untouched; with the flag ON (the
default) the body is executed by the inner line interpreter (here an
attachment is stored).  Moreover in v0.67 a top-level nested-HSX fence
never even reaches `_runHSXBlock`: the two-character tag slice cannot
equal `hsx`, so the fence is consumed with no effect and no
diagnostic. -/
theorem c1_amended :
    (∀ (fuel : Nat) (st : HSXState) (code : String), st.sandboxed = false →
      runHSXBlock fuel st code = .ok (st, [.hsxSkipped])) ∧
    runHSXBlock 5 hsxInit "foo eq a" =
      .ok ({ hsxInit with attachments := [("foo", ["a"])] }, [.attachmentStored "foo"]) ∧
    hsxExecLines 5 hsxInit ["\x7bhsx", "foo eq a", "\x7d"] = .ok (hsxInit, []) := by
  refine ⟨?_, by decide, by decide⟩
  intro fuel st code h
  simp [runHSXBlock, h]

/-- C1, witness for the amended theorem's universally quantified
part, at a concrete sandbox-off state. -/
theorem c1_witness :
    runHSXBlock 3 { hsxInit with sandboxed := false } "x.ps" =
      .ok ({ hsxInit with sandboxed := false }, [.hsxSkipped]) :=
  c1_amended.1 3 { hsxInit with sandboxed := false } "x.ps" rfl

/-- C3, counterexample: the failure of the legacy attachment parser on
a line with a comma but no `eq` is NOT caught at any enclosing scope:
the `TypeError` escapes `_parseAttachmentLegacy` and `_runHSXBlock`
(no log entry, no continued scan), contrary to the claim. -/
theorem c3_counterexample :
    runHSXBlock 3 hsxInit "a,b" = .error .jsThrow ∧
    parseAttachmentLegacy hsxInit "a,b" = .error .jsThrow := ⟨by decide, by decide⟩

/-- C3, amended: `execute` itself does complete normally on every
input (fuel beyond the line count), but not because failures are
caught — the nested-HSX dispatch is dead (the fence-tag slice has two
characters, never `hsx`), so the malformed fence body is silently
dropped (no log entry) and the uncatchable path is unreachable; fed to
`_runHSXBlock` directly, the same body throws. -/
theorem c3_amended :
    (∀ (fuel : Nat) (st : HSXState) (lines : List String), lines.length < fuel →
      ∃ p, hsxExecLines fuel st lines = .ok p) ∧
    (∀ line : String, sliceS line 1 3 ≠ "hsx") ∧
    hsxExecute 5 "\x7bhsx\na,b\n\x7d" = .ok (hsxInit, []) ∧
    runHSXBlock 5 hsxInit "a,b" = .error .jsThrow :=
  ⟨hsxExecLines_isOk, sliceS_one_three_ne_hsx, by decide, by decide⟩

/-- C3, witness: the totality statement applied to a concrete
malformed input. -/
theorem c3_witness : ∃ p, hsxExecLines 4 hsxInit ["\x7bhsx", "a,b", "\x7d"] = .ok p :=
  c3_amended.1 4 hsxInit ["\x7bhsx", "a,b", "\x7d"] (by decide)

/-- C4, counterexample: the CCCL block scan does NOT treat the end of
input as an implicit terminator: on `CCCL FOO` with no closing brace,
`HSXEngine.run` never completes, whatever fuel bound is granted (the
JS loop `while (lines[i]?.trim() !== "}")` runs forever). -/
theorem c4_counterexample : engineDiverges "CCCL FOO" := by
  intro fuel
  cases fuel with
  | zero => rfl
  | succ fuel =>
    show engineRunLines (fuel + 1) engineInit ["CCCL FOO"] = .error .fuelOut
    have h : engineRunLines (fuel + 1) engineInit ["CCCL FOO"] =
        match ccclScan fuel [] with
        | .ok p => engineRunLines fuel
            { engineInit with customCodeLines := [("FOO", String.intercalate "\n" p.1)] } p.2
        | .error e => .error e := rfl
    rw [h, ccclScan_stuck fuel [] (by simp)]

/-- C4, amended: every block scan except the CCCL one treats the end
of input as an implicit terminator, the lines consumed so far forming
the captured block (fence and component scans of `execute`; record and
field scans of `HSXEngine.run`); the CCCL scan alone diverges whenever
its standalone closing brace never appears. -/
theorem c4_amended :
    (∀ ls : List String, (∀ l ∈ ls, isCloseBrace l = false) →
      scanFence ls = (joinNL ls, [])) ∧
    (∀ ls : List String, (∀ l ∈ ls, startsWithS l "hsx end" = false) →
      scanComponent ls = (joinNL ls, [])) ∧
    (∀ ls : List String, (∀ l ∈ ls, startsWithS (jsTrim l) ";:" = true) →
      scanRecords ls = (ls, [])) ∧
    (∀ ls : List String, (∀ l ∈ ls, includesS l "=" = true) →
      scanFields ls = (ls, [])) ∧
    (∀ (fuel : Nat) (ls : List String), (∀ l ∈ ls, jsTrim l ≠ "\x7d") →
      ccclScan fuel ls = .error .fuelOut) := by
  refine ⟨?_, ?_, ?_, ?_, fun fuel ls h => ccclScan_stuck fuel ls h⟩
  · intro ls
    induction ls with
    | nil => intro _; rfl
    | cons l rest ih =>
      intro hls
      have hl : isCloseBrace l = false := hls l (by simp)
      have hr := ih (fun x hx => hls x (by simp [hx]))
      simp [scanFence, hl, hr, joinNL]
  · intro ls
    induction ls with
    | nil => intro _; rfl
    | cons l rest ih =>
      intro hls
      have hl : startsWithS l "hsx end" = false := hls l (by simp)
      have hr := ih (fun x hx => hls x (by simp [hx]))
      simp [scanComponent, hl, hr, joinNL]
  · intro ls
    induction ls with
    | nil => intro _; rfl
    | cons l rest ih =>
      intro hls
      have hl := hls l (by simp)
      have hr := ih (fun x hx => hls x (by simp [hx]))
      simp [scanRecords, hl, hr]
  · intro ls
    induction ls with
    | nil => intro _; rfl
    | cons l rest ih =>
      intro hls
      have hl := hls l (by simp)
      have hr := ih (fun x hx => hls x (by simp [hx]))
      simp [scanFields, hl, hr]

/-- C2, counterexample: after running `:Hsx:` + `$s` (which embeds the
physic copy), a later field assignment through the visible entry
`storages["s"]` changes what `physicStorage["s"]` and the hidden
`_physic_s` slot show — from the empty table at embedding time to the
mutated table — so the physic copy is NOT left unchanged. -/
theorem c2_counterexample :
    engineRun 10 engineInit ":Hsx:\n$s" = .ok engineStateS ∧
    physicDeref engineStateS "s" = some [] ∧
    physicDeref (storageAssign engineStateS "s" "k" "val") "s" = some [("k", "val")] ∧
    hiddenDeref (storageAssign engineStateS "s" "k" "val") "s" = some [("k", "val")] ∧
    (some [("k", "val")] : Option (List (String × String))) ≠ some [] :=
  ⟨by decide, by decide, by decide, by decide, by decide⟩

/-- C2, amended: `embedPhysic` stores the REFERENCE of the visible
storage object, so the physic copy is a live alias, not a snapshot: a
later field assignment through the visible entry is seen through
`physicStorage[name]`, the hidden `_physic_<name>` slot and the
visible entry alike. -/
theorem c2_amended (st : EngineState) (name k v : String) (r : Nat)
    (tbl : List (String × String)) (st1 : EngineState)
    (hs : getAssoc st.storages name = some r)
    (hh : getAssoc st.heap r = some tbl)
    (he : embedPhysic st name = .ok st1) :
    getAssoc st1.physicStorage name = some (some r) ∧
    storageDeref (storageAssign st1 name k v) name = some (setAssoc tbl k v) ∧
    physicDeref (storageAssign st1 name k v) name = some (setAssoc tbl k v) ∧
    hiddenDeref (storageAssign st1 name k v) name = some (setAssoc tbl k v) := by
  obtain ⟨hstor, hheap, _, hphys, q, hq, hqv⟩ := embedPhysic_ok_spec he
  have h1 : getAssoc st1.physicStorage name = some (some r) := by
    rw [hphys, getAssoc_setAssoc_self, hs]
  have h2 : storageAssign st1 name k v =
      { st1 with heap := setAssoc st.heap r (setAssoc tbl k v) } := by
    simp only [storageAssign, heapSetField, hstor, hs, hheap, hh]
  refine ⟨h1, ?_, ?_, ?_⟩
  · simp only [storageDeref, h2, hstor, hs]
    exact getAssoc_setAssoc_self _ _ _
  · simp only [physicDeref, h2, h1]
    exact getAssoc_setAssoc_self _ _ _
  · simp only [hiddenDeref, h2, hq, hqv, hs]
    exact getAssoc_setAssoc_self _ _ _

/-- C2, witness for the amended theorem at the concrete embedded
storage state. -/
theorem c2_witness :
    getAssoc engineStateS.physicStorage "s" = some (some 0) ∧
    storageDeref (storageAssign engineStateS "s" "k" "v") "s" = some [("k", "v")] ∧
    physicDeref (storageAssign engineStateS "s" "k" "v") "s" = some [("k", "v")] ∧
    hiddenDeref (storageAssign engineStateS "s" "k" "v") "s" = some [("k", "v")] :=
  c2_amended engineStateS0 "s" "k" "v" 0 [] engineStateS (by decide) (by decide) (by decide)

/-- C8: physic-storage embedding is idempotent per name.  After a
first embedding (with a fresh hidden slot), a second `embedPhysic` of
the same name — even after arbitrary changes to the visible storages,
the heap and the allocation counter — never raises, overwrites both
the `physicStorage` entry and the hidden `_physic_<name>` slot with
the CURRENT visible storage value, and creates no second entry (the
key list of `physicStorage` is unchanged). -/
theorem c8_theorem (st : EngineState) (name : String)
    (stor2 : List (String × Nat)) (heap2 : List (Nat × List (String × String))) (nr2 : Nat)
    (hfresh : getAssoc st.hiddenProps ("_physic_" ++ name) = none) :
    ∃ st1, embedPhysic st name = .ok st1 ∧
      embedPhysic { st1 with storages := stor2, heap := heap2, nextRef := nr2 } name =
        .ok { st1 with
              storages := stor2, heap := heap2, nextRef := nr2,
              physicStorage := setAssoc st1.physicStorage name (getAssoc stor2 name),
              hiddenProps := (setAssoc st1.hiddenProps ("_physic_" ++ name)
                ⟨getAssoc stor2 name, true, false, false⟩) } ∧
      (setAssoc st1.physicStorage name (getAssoc stor2 name)).map Prod.fst =
        st1.physicStorage.map Prod.fst := by
  refine ⟨_, embedPhysic_fresh hfresh, ?_, ?_⟩
  · have hq : getAssoc
        (setAssoc st.hiddenProps ("_physic_" ++ name)
          ⟨getAssoc st.storages name, true, false, false⟩) ("_physic_" ++ name) =
        some ⟨getAssoc st.storages name, true, false, false⟩ :=
      getAssoc_setAssoc_self _ _ _
    have hd := definePropertyNE_redef (getAssoc stor2 name) hq
    simp only [embedPhysic]
    rw [hd]
  · exact setAssoc_keys_of_mem _ _ _ _ (getAssoc_setAssoc_self _ _ _)

/-- C8, witness: the idempotence statement at a concrete state, with
the visible storage rebound to a different object between the two
embeddings. -/
theorem c8_witness :
    ∃ st1, embedPhysic engineStateS0 "s" = .ok st1 ∧
      embedPhysic { st1 with
          storages := [("s", 1)],
          heap := [(0, []), (1, [("a", "1")])], nextRef := 2 } "s" =
        .ok { st1 with
              storages := [("s", 1)],
              heap := [(0, []), (1, [("a", "1")])], nextRef := 2,
              physicStorage := setAssoc st1.physicStorage "s" (getAssoc [("s", 1)] "s"),
              hiddenProps := (setAssoc st1.hiddenProps ("_physic_" ++ "s")
                ⟨getAssoc [("s", 1)] "s", true, false, false⟩) } ∧
      (setAssoc st1.physicStorage "s" (getAssoc [("s", 1)] "s")).map Prod.fst =
        st1.physicStorage.map Prod.fst :=
  c8_theorem engineStateS0 "s" [("s", 1)] [(0, []), (1, [("a", "1")])] 2 (by decide)

/-- C6, counterexample: with `modA` undeclared and `modB` declared,
invoking the combined module `modA+modB` reports `Module not found`
for `modA` and then STILL runs `modB` (its body log and the wrapper
success log appear) — the remaining constituents are attempted,
contrary to the claim's stop-at-first-failure. -/
theorem c6_counterexample :
    hsxExecLines 5 hsxInit
        ["hsx modules: create > modB", "hsx modules: comb eq modA+modB"] =
      .ok ({ hsxInit with
        modules := [("modB", .simple), ("modA+modB", .combined ["modA", "modB"])] }, []) ∧
    runModule 3 { hsxInit with
        modules := [("modB", .simple), ("modA+modB", .combined ["modA", "modB"])] }
        "modA+modB" =
      .ok [.moduleNotFound "modA", .moduleBodyLog "modB", .moduleExecuted "modB",
        .combinedLog "modA+modB", .moduleExecuted "modA+modB"] := ⟨by decide, by decide⟩

/-- C6, amended: invoking a combined module runs the constituents
sequentially left-to-right; an undeclared constituent is reported as
not found and the REMAINING constituents are still attempted (there is
no stop at the first failure); the combined log and the wrapper
success log follow. -/
theorem c6_amended (fuel : Nat) (st : HSXState) (name : String) (parts : List String)
    (hc : getAssoc st.modules name = some (.combined parts))
    (hp : ∀ p ∈ parts, getAssoc st.modules p = none ∨ getAssoc st.modules p = some .simple) :
    runModule (fuel + 1 + 1) st name =
      .ok ((parts.map (fun p =>
          match getAssoc st.modules p with
          | none => [HEvent.moduleNotFound p]
          | some _ => [HEvent.moduleBodyLog p, HEvent.moduleExecuted p])).flatten ++
        [.combinedLog (String.intercalate "+" parts), .moduleExecuted name]) := by
  have hseq : ∀ ps : List String,
      (∀ p ∈ ps, getAssoc st.modules p = none ∨ getAssoc st.modules p = some .simple) →
      runModuleSeq (fun p => runModule (fuel + 1) st p) ps =
        .ok ((ps.map (fun p =>
          match getAssoc st.modules p with
          | none => [HEvent.moduleNotFound p]
          | some _ => [HEvent.moduleBodyLog p, HEvent.moduleExecuted p])).flatten) := by
    intro ps
    induction ps with
    | nil => intro _; rfl
    | cons p ps ih =>
      intro hps
      have hm := hps p (by simp)
      have ht := ih (fun x hx => hps x (by simp [hx]))
      have hhead : runModule (fuel + 1) st p =
          .ok (match getAssoc st.modules p with
            | none => [HEvent.moduleNotFound p]
            | some _ => [HEvent.moduleBodyLog p, HEvent.moduleExecuted p]) := by
        cases hm with
        | inl hnone => simp [runModule, hnone]
        | inr hsimple => simp [runModule, hsimple]
      simp only [runModuleSeq, hhead, ht, List.map_cons, List.flatten_cons]
  have hs2 := hseq parts hp
  simp only [runModule, hc] at hs2 ⊢
  rw [hs2]

/-- C6, witness: the amended statement at the concrete registry of the
counterexample. -/
theorem c6_witness :
    runModule (1 + 1 + 1) { hsxInit with
        modules := [("modB", .simple), ("modA+modB", .combined ["modA", "modB"])] }
        "modA+modB" =
      .ok (((["modA", "modB"] : List String).map (fun p =>
          match getAssoc ({ hsxInit with
            modules := [("modB", .simple),
              ("modA+modB", .combined ["modA", "modB"])] } : HSXState).modules p with
          | none => [HEvent.moduleNotFound p]
          | some _ => [HEvent.moduleBodyLog p, HEvent.moduleExecuted p])).flatten ++
        [.combinedLog (String.intercalate "+" ["modA", "modB"]),
          .moduleExecuted "modA+modB"]) :=
  c6_amended 1 _ "modA+modB" ["modA", "modB"] (by decide) (by decide)

/-- C9: a bare line equal to the name of a stored (nonempty) custom
code unit, matching no earlier directive, makes `run` recursively
execute the stored body against the SAME state; the outer scan then
continues with the state the nested run produced, so registry
mutations made inside the body are visible to the caller. -/
theorem c9_theorem (fuel : Nat) (st : EngineState) (l : String) (rest : List String)
    (body : String)
    (hl : jsTrim l = l) (h1 : l ≠ "bots:") (h2 : l ≠ ":Hsx:")
    (h3 : startsWithS l "CCCL" = false)
    (h4 : getAssoc st.customCodeLines l = some body) (h5 : body ≠ "") :
    engineRunLines (fuel + 1) st (l :: rest) =
      match engineRun fuel st body with
      | .ok st1 => engineRunLines fuel st1 rest
      | .error e => .error e := by
  simp [engineRunLines, engineRun, hl, h1, h2, h3, h4, h5]

/-- C9, witness: replaying `FOO`, whose stored body creates a custom
storage; the storage created inside the nested run is visible in the
caller's final state. -/
theorem c9_witness :
    (engineRunLines (8 + 1) { engineInit with
        customCodeLines := [("FOO", ":Hsx:\ncreate storage thing\nx = \"9\"")] } ["FOO"]).map
      (fun st => (getAssoc st.customStorages "thing").bind (getAssoc st.heap)) =
    .ok (some [("x", "9")]) := by
  rw [c9_theorem 8 { engineInit with
      customCodeLines := [("FOO", ":Hsx:\ncreate storage thing\nx = \"9\"")] }
    "FOO" [] ":Hsx:\ncreate storage thing\nx = \"9\"" (by decide) (by decide)
    (by decide) (by decide) (by decide) (by decide)]
  decide

/-- C10: the security directive line `hsx security <token>` sets the
sandbox flag to the boolean `token != "off"`: it disables sandboxing
exactly when the trimmed trailing token is the literal `off`, and
re-enables it for every other token (including the empty one). -/
theorem c10_theorem (fuel : Nat) (st : HSXState) (t : String) (ht : jsTrim t = t) :
    hsxExecLines (fuel + 1 + 1) st ["hsx security " ++ t] =
      .ok ({ st with sandboxed := t != "off" }, [.securityMode (t != "off")]) := by
  by_cases hte : t = ""
  · subst hte
    rfl
  · have hlit : jsTrim ("hsx security " ++ t) = "hsx security " ++ t := by
      rw [jsTrim_lit_append _ t (by decide) (by decide) ht, if_neg hte]
    have e1 : ("hsx security " ++ t) ≠ "" :=
      fun h => List.cons_ne_nil 'h' _ (congrArg String.data h)
    have e2 : startsWithS ("hsx security " ++ t) "hsx attach image" = false := rfl
    have e3 : startsWithS ("hsx security " ++ t) "hsx attach video" = false := rfl
    have e4 : startsWithS ("hsx security " ++ t) "hsx attach audio" = false := rfl
    have e5 : startsWithS ("hsx security " ++ t) "hsx define component" = false := rfl
    have e6 : startsWithS ("hsx security " ++ t) "hsx render" = false := rfl
    have e7 : (startsWithS ("hsx security " ++ t) "\x7bjs" ||
        startsWithS ("hsx security " ++ t) "\x7bpy" ||
        startsWithS ("hsx security " ++ t) "\x7bhsx") = false := rfl
    have e8 : startsWithS ("hsx security " ++ t) "hsx security" = true := rfl
    have er : removeFirstS ("hsx security " ++ t) "hsx security" =
        (⟨' ' :: t.data⟩ : String) := rfl
    simp only [hsxExecLines, hlit, e1, e2, e3, e4, e5, e6, e7, e8, er,
      jsTrim_space_cons t ht, contEvents, List.append_nil,
      Bool.false_eq_true, if_false, if_true]

/-- C10, witness: token `off` disables sandboxing; token `on`
(re)enables it. -/
theorem c10_witness :
    hsxExecLines (3 + 1 + 1) hsxInit ["hsx security " ++ "off"] =
      .ok ({ hsxInit with sandboxed := false }, [.securityMode false]) ∧
    hsxExecLines (3 + 1 + 1) hsxInit ["hsx security " ++ "on"] =
      .ok ({ hsxInit with sandboxed := true }, [.securityMode true]) :=
  ⟨c10_theorem 3 hsxInit "off" (by decide), c10_theorem 3 hsxInit "on" (by decide)⟩

/-- C7, counterexample: for the single captured body line `X` the
stored body is `X\n` — each captured line gets a trailing newline — so
the claim's "stored body equals the captured lines joined with
newline" fails: joining `["X"]` with newline gives `X`, but the
Renderer receives `X\n`. -/
theorem c7_counterexample :
    hsxExecLines 5 hsxInit
        ["hsx define component A", "X", "hsx end", "hsx render A"] =
      .ok ({ hsxInit with components := [("A", "X\n")] },
        [.componentDefined "A", .renderComp "A" "X\n"]) ∧
    "X\n" ≠ String.intercalate "\n" ["X"] := ⟨by decide, by decide⟩

/-- C7, amended: executing a component definition with a nonempty body
and then `hsx render NAME` invokes the Renderer exactly once, with the
stored body, which is the concatenation of each captured body line
followed by a newline (the captured lines joined with newline PLUS a
trailing newline). -/
theorem c7_amended (fuel : Nat) (nm : String) (bs : List String) (st : HSXState)
    (hnm : jsTrim nm = nm) (hne : nm ≠ "")
    (hbs : ∀ l ∈ bs, startsWithS l "hsx end" = false) (hb : bs ≠ []) :
    hsxExecLines (fuel + 1 + 1 + 1) st
        (("hsx define component " ++ nm) :: (bs ++ ["hsx end", "hsx render " ++ nm])) =
      .ok ({ st with components := setAssoc st.components nm (joinNL bs) },
        [.componentDefined nm, .renderComp nm (joinNL bs)]) := by
  have hlit1 : jsTrim ("hsx define component " ++ nm) = "hsx define component " ++ nm := by
    rw [jsTrim_lit_append _ nm (by decide) (by decide) hnm, if_neg hne]
  have hname1 : jsTrim (removeFirstS ("hsx define component " ++ nm)
      "hsx define component") = nm := by
    have hrm : removeFirstS ("hsx define component " ++ nm) "hsx define component" =
        (⟨' ' :: nm.data⟩ : String) := rfl
    rw [hrm, jsTrim_space_cons nm hnm]
  have hscan := scanComponent_through "hsx end" ["hsx render " ++ nm] rfl bs hbs
  have d1 : ("hsx define component " ++ nm) ≠ "" :=
    fun h => List.cons_ne_nil 'h' _ (congrArg String.data h)
  have d2 : startsWithS ("hsx define component " ++ nm) "hsx attach image" = false := rfl
  have d3 : startsWithS ("hsx define component " ++ nm) "hsx attach video" = false := rfl
  have d4 : startsWithS ("hsx define component " ++ nm) "hsx attach audio" = false := rfl
  have d5 : startsWithS ("hsx define component " ++ nm) "hsx define component" = true := rfl
  have hlit2 : jsTrim ("hsx render " ++ nm) = "hsx render " ++ nm := by
    rw [jsTrim_lit_append _ nm (by decide) (by decide) hnm, if_neg hne]
  have hname2 : jsTrim (removeFirstS ("hsx render " ++ nm) "hsx render") = nm := by
    have hrm : removeFirstS ("hsx render " ++ nm) "hsx render" =
        (⟨' ' :: nm.data⟩ : String) := rfl
    rw [hrm, jsTrim_space_cons nm hnm]
  have r1 : ("hsx render " ++ nm) ≠ "" :=
    fun h => List.cons_ne_nil 'h' _ (congrArg String.data h)
  have r2 : startsWithS ("hsx render " ++ nm) "hsx attach image" = false := rfl
  have r3 : startsWithS ("hsx render " ++ nm) "hsx attach video" = false := rfl
  have r4 : startsWithS ("hsx render " ++ nm) "hsx attach audio" = false := rfl
  have r5 : startsWithS ("hsx render " ++ nm) "hsx define component" = false := rfl
  have r6 : startsWithS ("hsx render " ++ nm) "hsx render" = true := rfl
  have hbody : getAssoc (setAssoc st.components nm (joinNL bs)) nm = some (joinNL bs) :=
    getAssoc_setAssoc_self _ _ _
  have hjoin : joinNL bs ≠ "" := by
    cases bs with
    | nil => exact absurd rfl hb
    | cons b bs' => exact joinNL_ne_empty b bs'
  simp only [hsxExecLines, hlit1, d1, d2, d3, d4, d5, hname1, hscan, hlit2, r1, r2, r3,
    r4, r5, r6, hname2, hbody, hjoin, contEvents, List.append_nil, Bool.false_eq_true,
    if_false, if_true, ne_eq, not_false_eq_true, List.singleton_append]

/-- C7, witness: the amended round-trip at a concrete two-line
component. -/
theorem c7_witness :
    hsxExecLines (2 + 1 + 1 + 1) hsxInit
        (("hsx define component " ++ "Card") ::
          (["<p>a</p>", "<p>b</p>"] ++ ["hsx end", "hsx render " ++ "Card"])) =
      .ok ({ hsxInit with
          components := setAssoc hsxInit.components "Card" (joinNL ["<p>a</p>", "<p>b</p>"]) },
        [.componentDefined "Card", .renderComp "Card" (joinNL ["<p>a</p>", "<p>b</p>"])]) :=
  c7_amended 2 "Card" ["<p>a</p>", "<p>b</p>"] hsxInit (by decide) (by decide)
    (by decide) (by decide)

/-- C4, witness: the amended statement applied to concrete blocks that
run off the end of input. -/
theorem c4_witness :
    scanFence ["a", "b"] = ("a\nb\n", []) ∧
    scanComponent ["x"] = ("x\n", []) ∧
    scanRecords [";: r"] = ([";: r"], []) ∧
    scanFields ["k = 1"] = (["k = 1"], []) ∧
    ccclScan 7 ["x"] = .error .fuelOut :=
  ⟨c4_amended.1 ["a", "b"] (by decide),
   c4_amended.2.1 ["x"] (by decide),
   c4_amended.2.2.1 [";: r"] (by decide),
   c4_amended.2.2.2.1 ["k = 1"] (by decide),
   c4_amended.2.2.2.2 7 ["x"] (by decide)⟩

end HSX
